import Mathlib

/-!
Verification development for the content-acquisition and tenant-store
subsystem of the application assistant repository.  The definitions below are
a shallow embedding of `server/index.js` (extraction, hashing, upsert, the
page endpoints and the bounded-concurrency fetch pool), of the tenant store
manager (`sanitizeChatId` / `getDb` with its per-tenant cache) and, where the
server code is absent from the sources, of the behaviour the specification
describes (marked `Modelled from the spec:`).
-/

/-! ### Character and string utilities (ASCII case folding, trimming) -/

/-- ASCII lower-casing of a single character, matching SQLite's default
`LIKE` case folding and the ASCII fragment of JavaScript `toLowerCase`. -/
def lcase (c : Char) : Char :=
  if 'A' ≤ c ∧ c ≤ 'Z' then Char.ofNat (c.toNat + 32) else c

/-- Whitespace test modelling the JavaScript `\s` class on the common
ASCII whitespace characters. -/
def isWs (c : Char) : Bool :=
  c == ' ' || c == '\t' || c == '\n' || c == '\r' || c == '\x0b' || c == '\x0c'

/-- Trim of leading and trailing whitespace (JavaScript `String.trim`). -/
def trimList (s : List Char) : List Char :=
  ((s.dropWhile isWs).reverse.dropWhile isWs).reverse

/-- String-level trim wrapper. -/
def trimStr (s : String) : String := ⟨trimList s.data⟩

/-- Lower-case every character (ASCII). -/
def lowerStr (s : String) : String := ⟨s.data.map lcase⟩

/-- Does `f` hold of some suffix of the list (the list itself included)? -/
def anySuffix (f : List Char → Bool) : List Char → Bool
  | [] => f []
  | c :: cs => f (c :: cs) || anySuffix f cs

/-- Case-insensitive prefix test: is `q` a prefix of `s` up to ASCII case? -/
def isPrefixCI : List Char → List Char → Bool
  | [], _ => true
  | _ :: _, [] => false
  | q :: qs, c :: cs => (lcase q == lcase c) && isPrefixCI qs cs

/-- Case-insensitive substring containment: does `s` contain `q`?  This is
the semantics of JavaScript `s.toLowerCase().includes(q.toLowerCase())`. -/
def containsCI (s q : List Char) : Bool :=
  anySuffix (isPrefixCI q) s

/-- String-level case-insensitive substring containment. -/
def containsCIStr (s q : String) : Bool := containsCI s.data q.data

/-! ### SQLite `LIKE` pattern matching

`GET /api/pages/search` builds the pattern `'%' + query + '%'` by string
interpolation and runs it through SQL `LIKE`, so `%` and `_` inside the
query act as wildcards.  `likeMatch pat s` is SQLite's `LIKE` semantics:
`%` matches any (possibly empty) run, `_` matches exactly one character,
anything else matches one character up to ASCII case. -/
def likeMatch : List Char → List Char → Bool
  | [], s => s.isEmpty
  | p :: ps, s =>
    if p = '%' then anySuffix (likeMatch ps) s
    else
      match s with
      | [] => false
      | c :: cs =>
        if p = '_' then likeMatch ps cs
        else (lcase p == lcase c) && likeMatch ps cs

/-- The pattern `'%' + query + '%'` built by the search endpoint. -/
def likePattern (q : String) : List Char := '%' :: (q.data ++ ['%'])

/-! ### Content hasher

`hashContent` in `server/index.js` is `crypto.createHash('sha256')…digest('hex')`.
The claims rely only on the digest being a deterministic pure function of the
content, so the library call is modelled by an executable deterministic
fingerprint rendered in hex (the SHA-256 compression itself is external
library code, not repository code). -/

/-- Hex digit for a value below 16. -/
def hexDigitChar (n : Nat) : Char :=
  if n < 10 then Char.ofNat (48 + n) else Char.ofNat (87 + n % 16)

/-- Big-endian rendering of `n` in `d` hex digits. -/
def natToHex : Nat → Nat → List Char
  | 0, _ => []
  | d + 1, n => natToHex d (n / 16) ++ [hexDigitChar (n % 16)]

/-- Deterministic executable model of the sha256 hex digest of the content. -/
def hashContent (content : String) : String :=
  ⟨natToHex 16 (content.data.foldl (fun h c => (h * 31 + c.toNat) % (2 ^ 64)) 5381)⟩

/-! ### Pages data model (schema.sql) -/

/-- One row of the `pages` table (`schema.sql`); timestamps are modelled as
abstract clock ticks. -/
structure Page where
  id : Nat
  url : String
  title : Option String
  content : String
  status_code : Option Int
  content_hash : String
  fetched_at : Nat
  created_at : Nat
  updated_at : Nat
deriving DecidableEq

/-- One tenant's SQLite database: the `pages` rows in insertion order plus
the next rowid to assign (`INTEGER PRIMARY KEY` autoincrement behaviour). -/
structure Store where
  pages : List Page
  nextId : Nat
deriving DecidableEq

/-- A freshly initialised tenant database. -/
def emptyStore : Store := ⟨[], 1⟩

/-! ### upsertPage (`server/index.js` lines 56-73) -/

/-- Field refresh applied by the `ON CONFLICT(url) DO UPDATE` branch. -/
def refreshRow (title : Option String) (content : String) (statusCode : Option Int)
    (contentHash : String) (now : Nat) (p : Page) : Page :=
  { p with title := title, content := content, status_code := statusCode,
           content_hash := contentHash, fetched_at := now, updated_at := now }

/-- The `INSERT … ON CONFLICT(url) DO UPDATE` statement: update the row
matched by `url` in place, or append a fresh row under the next rowid. -/
def upsertWrite (db : Store) (url : String) (title : Option String) (content : String)
    (statusCode : Option Int) (contentHash : String) (now : Nat) : Store :=
  if db.pages.any (fun p => p.url == url) then
    { db with pages := db.pages.map (fun p =>
        if p.url == url then refreshRow title content statusCode contentHash now p else p) }
  else
    { pages := db.pages ++ [⟨db.nextId, url, title, content, statusCode, contentHash,
        now, now, now⟩],
      nextId := db.nextId + 1 }

/-- `upsertPage`: computes the content hash, runs the insert-or-update
statement, then re-reads the row's id (`SELECT id FROM pages WHERE url = ?`).
Returns `((id?, contentHash), newStore)`. -/
def upsertPage (db : Store) (url : String) (title : Option String) (content : String)
    (statusCode : Option Int) (now : Nat) : (Option Nat × String) × Store :=
  ((((upsertWrite db url title content statusCode (hashContent content) now).pages.find?
      (fun p => p.url == url)).map (·.id), hashContent content),
    upsertWrite db url title content statusCode (hashContent content) now)

/-! ### Page list and search endpoints (`server/index.js` lines 79-131) -/

/-- Descending-id comparison used to model `ORDER BY id DESC`. -/
def pageGE (a b : Page) : Prop := b.id ≤ a.id

instance : DecidableRel pageGE := fun a b => Nat.decLe b.id a.id

instance : IsTotal Page pageGE := ⟨fun a b => Nat.le_total b.id a.id⟩

instance : IsTrans Page pageGE := ⟨fun _ _ _ h1 h2 => Nat.le_trans h2 h1⟩

/-- `ORDER BY id DESC` over the row list. -/
def sortByIdDesc (l : List Page) : List Page := l.insertionSort pageGE

/-- `GET /api/pages`: `limit` capped at 200 (`Math.min(limit, 200)`), `offset`
clamped to be non-negative (`Math.max(offset, 0)`), rows ordered by id
descending, then the SQL `OFFSET`/`LIMIT` window. -/
def pagesList (s : Store) (limit : Nat) (offset : Int) : List Page :=
  (((sortByIdDesc s.pages).drop (max offset 0).toNat).take (min limit 200))

/-- Does a row satisfy `content LIKE '%q%' OR title LIKE '%q%'`?  A NULL
title makes the second disjunct NULL, i.e. not satisfied. -/
def rowMatchesLike (q : String) (p : Page) : Bool :=
  likeMatch (likePattern q) p.content.data ||
    (match p.title with
     | some t => likeMatch (likePattern q) t.data
     | none => false)

/-- `GET /api/pages/search`: trims the query, returns `[]` on an empty query,
otherwise filters by the `LIKE` disjunction, orders by id descending and
applies the clamped offset/limit window. -/
def pagesSearch (s : Store) (q : String) (limit : Nat) (offset : Int) : List Page :=
  if trimStr q = "" then []
  else (((sortByIdDesc (s.pages.filter (rowMatchesLike (trimStr q)))).drop
      (max offset 0).toNat).take (min limit 200))

/-- Does a row contain `q` as a case-insensitive substring of its content or
its (non-null) title?  This is the predicate the specification's words
describe for the search endpoint. -/
def rowMatchesSubstr (q : String) (p : Page) : Bool :=
  containsCI p.content.data q.data ||
    (match p.title with
     | some t => containsCI t.data q.data
     | none => false)

/-- Search as the specification words it (case-insensitive substring match
instead of SQL `LIKE`); used to compare the implementation against the spec. -/
def specSearchItems (s : Store) (q : String) (limit : Nat) (offset : Int) : List Page :=
  if trimStr q = "" then []
  else (((sortByIdDesc (s.pages.filter (rowMatchesSubstr (trimStr q)))).drop
      (max offset 0).toNat).take (min limit 200))

/-! ### Content extractor (`server/index.js` lines 15-31)

`extractTitle` is the regex `<title[^>]*>([\s\S]*?)<\/title>` (case-insensitive,
first match); `extractText` strips `<script…</script>` and `<style…</style>`
blocks, then all remaining `<[^>]+>` tags, each replaced by a space, and
finally collapses whitespace runs and trims (`sanitizeText`).  The scanners
below model those regex replacements for the first-match/lazy semantics the
patterns have; fuel arguments make them structurally recursive. -/

/-- Whitespace-run collapsing; the flag records whether the previous emitted
character came from a whitespace run. -/
def collapseWsAux : Bool → List Char → List Char
  | _, [] => []
  | prevWs, c :: cs =>
    if isWs c then
      if prevWs then collapseWsAux true cs else ' ' :: collapseWsAux true cs
    else c :: collapseWsAux false cs

/-- `sanitizeText`: collapse whitespace runs to single spaces and trim. -/
def sanitizeText (s : String) : String :=
  ⟨trimList (collapseWsAux false s.data)⟩

/-- Remainder of the input after the first case-insensitive occurrence of
`pat`, or `none` when `pat` does not occur. -/
def dropThroughCI (pat : List Char) : List Char → Option (List Char)
  | [] => if pat.isEmpty then some [] else none
  | c :: cs =>
    if isPrefixCI pat (c :: cs) then some ((c :: cs).drop pat.length)
    else dropThroughCI pat cs

/-- Suffix of the input starting right after the first case-insensitive
occurrence of `"<title"`, or `none`. -/
def findTitleStart : List Char → Option (List Char)
  | [] => none
  | c :: cs =>
    if isPrefixCI "<title".data (c :: cs) then some ((c :: cs).drop 6)
    else findTitleStart cs

/-- Skip the `[^>]*>` part of the title-tag pattern: everything up to and
including the next `'>'`. -/
def skipToGt : List Char → Option (List Char)
  | [] => none
  | c :: cs => if c == '>' then some cs else skipToGt cs

/-- Characters before the first case-insensitive `"</title>"`. -/
def takeUntilCloseTitle : List Char → Option (List Char)
  | [] => none
  | c :: cs =>
    if isPrefixCI "</title>".data (c :: cs) then some []
    else (takeUntilCloseTitle cs).map (c :: ·)

/-- `extractTitle`: the sanitized body of the first title tag, or `null`. -/
def extractTitle (html : String) : Option String :=
  match findTitleStart html.data with
  | none => none
  | some afterOpen =>
    match skipToGt afterOpen with
    | none => none
    | some afterGt =>
      match takeUntilCloseTitle afterGt with
      | none => none
      | some inner => some (sanitizeText ⟨inner⟩)

/-- Replace every (lazily matched) `openT … closeT` block by a space; a block
with no closing occurrence is left untouched, as the regex then fails to
match.  The fuel bounds recursion depth; `stripBlocks` supplies enough. -/
def stripBlocksFuel (openT closeT : List Char) : Nat → List Char → List Char
  | 0, s => s
  | _ + 1, [] => []
  | fuel + 1, c :: cs =>
    if isPrefixCI openT (c :: cs) then
      match dropThroughCI closeT (c :: cs) with
      | some rest => ' ' :: stripBlocksFuel openT closeT fuel rest
      | none => c :: stripBlocksFuel openT closeT fuel cs
    else c :: stripBlocksFuel openT closeT fuel cs

/-- Block stripping with the fuel set to the input length. -/
def stripBlocks (openT closeT : List Char) (s : List Char) : List Char :=
  stripBlocksFuel openT closeT s.length s

/-- Split at the first `'>'`: the characters before it and the rest after. -/
def findGt : List Char → Option (List Char × List Char)
  | [] => none
  | c :: cs =>
    if c == '>' then some ([], cs)
    else (findGt cs).map (fun r => (c :: r.1, r.2))

/-- Replace every `<[^>]+>` tag by a space (at least one character between
the brackets, as in the source regex). -/
def stripTagsFuel : Nat → List Char → List Char
  | 0, s => s
  | _ + 1, [] => []
  | fuel + 1, c :: cs =>
    if c == '<' then
      match findGt cs with
      | some (inner, rest) =>
        if inner.isEmpty then c :: stripTagsFuel fuel cs
        else ' ' :: stripTagsFuel fuel rest
      | none => c :: stripTagsFuel fuel cs
    else c :: stripTagsFuel fuel cs

/-- `extractText`: strip script blocks, style blocks, remaining tags, then
collapse whitespace and trim. -/
def extractText (html : String) : String :=
  let noScripts := stripBlocks "<script".data "</script>".data html.data
  let noStyles := stripBlocks "<style".data "</style>".data noScripts
  sanitizeText ⟨stripTagsFuel noStyles.length noStyles⟩

/-! ### Tenant store manager (`sanitizeChatId` / `getDb`) -/

/-- Is the character in `[a-zA-Z0-9_-]`? -/
def allowedIdChar (c : Char) : Bool :=
  ('a' ≤ c && c ≤ 'z') || ('A' ≤ c && c ≤ 'Z') || ('0' ≤ c && c ≤ '9') ||
    c == '_' || c == '-'

/-- `sanitizeChatId`: `String(chatId || 'default')` with every character
outside `[a-zA-Z0-9_-]` stripped, falling back to `"default"` when the
result is empty.  A missing or empty `chatId` is falsy in JavaScript and
also falls back to `"default"`. -/
def sanitizeChatId (chatId : Option String) : String :=
  let base := match chatId with
    | none => "default"
    | some s => if s = "" then "default" else s
  let safe : List Char := base.data.filter allowedIdChar
  if safe.length > 0 then ⟨safe⟩ else "default"

/-- The server's tenant state: one store per sanitized chat id.  `getDb`
creates a store lazily and caches it; since a fresh store is the schema's
empty database, the cache-plus-lazy-creation behaviour is the total map
that is `emptyStore` wherever nothing was written yet. -/
def Tenants : Type := String → Store

/-- The server state before any write. -/
def emptyTenants : Tenants := fun _ => emptyStore

/-- `getDb chatId`: the store of the sanitized tenant id. -/
def getStore (t : Tenants) (chatId : Option String) : Store :=
  t (sanitizeChatId chatId)

/-- A write operation under `chatId`: every server write path obtains its
database handle from `getDb chatId` and mutates only that store. -/
def applyAt (t : Tenants) (chatId : Option String) (f : Store → Store) : Tenants :=
  fun k => if k = sanitizeChatId chatId then f (t k) else t k

/-- `POST /api/pages` write path (manual save): upsert into the tenant's
store (`statusCode` is absent on this path in the frontend caller). -/
def postPage (t : Tenants) (chatId : Option String) (url : String)
    (title : Option String) (content : String) (now : Nat) : Tenants :=
  applyAt t chatId (fun db => (upsertPage db url title content none now).2)

/-- `GET /api/pages` under a tenant. -/
def listEndpoint (t : Tenants) (chatId : Option String) (limit : Nat) (offset : Int) :
    List Page :=
  pagesList (getStore t chatId) limit offset

/-- `GET /api/pages/search` under a tenant. -/
def searchEndpoint (t : Tenants) (chatId : Option String) (q : String) (limit : Nat)
    (offset : Int) : List Page :=
  pagesSearch (getStore t chatId) q limit offset

/-- `GET /api/pages/:id` under a tenant. -/
def getByIdEndpoint (t : Tenants) (chatId : Option String) (id : Nat) : Option Page :=
  (getStore t chatId).pages.find? (fun p => p.id == id)

/-! ### Network model and per-URL crawl / preview tasks
(`POST /api/crawl` lines 146-183, `POST /api/preview` lines 185-224) -/

/-- Batch size bound (`MAX_URLS`). -/
def MAX_URLS : Nat := 1000

/-- Worker pool size (`FETCH_CONCURRENCY`). -/
def FETCH_CONCURRENCY : Nat := 8

/-- Result of `fetch(url, {redirect: 'follow'})` followed by reading the
body: either a thrown error with its message, or the resolved URL
(`response.url`, possibly empty), the status code and the body text. -/
inductive FetchResult where
  | err (msg : String)
  | ok (resolvedUrl : String) (status : Int) (body : String)
deriving DecidableEq

/-- The network: what fetching each URL yields during the batch. -/
def Net : Type := String → FetchResult

/-- Per-URL outcome of a crawl, as returned in the response items.  The
`url` argument of every constructor is the original input URL. -/
inductive CrawlOutcome where
  | ok (url : String) (id : Option Nat) (statusCode : Int) (contentHash : String)
  | skipped (url : String) (reason : String)
  | failed (url : String) (reason : String)
deriving DecidableEq

/-- Outcome kind, for statements that only care about ok / skipped / failed. -/
inductive OutcomeKind where
  | ok
  | skipped
  | failed
deriving DecidableEq

/-- The kind of an outcome. -/
def CrawlOutcome.kind : CrawlOutcome → OutcomeKind
  | .ok _ _ _ _ => .ok
  | .skipped _ _ => .skipped
  | .failed _ _ => .failed

/-- The original input URL recorded in an outcome. -/
def CrawlOutcome.origUrl : CrawlOutcome → String
  | .ok u _ _ _ => u
  | .skipped u _ => u
  | .failed u _ => u

/-- The per-URL crawl task: fetch, extract title and text, skip on empty
text, otherwise upsert under the resolved URL (`response.url || url`).  The
store threads through as the state. -/
def crawlIter (net : Net) (now : Nat) (url : String) (db : Store) :
    CrawlOutcome × Store :=
  match net url with
  | .err msg => (.failed url msg, db)
  | .ok resolved status body =>
    if extractText body = "" then (.skipped url "no_content", db)
    else
      (.ok url
        (upsertPage db (if resolved = "" then url else resolved) (extractTitle body)
          (extractText body) (some status) now).1.1
        status
        (upsertPage db (if resolved = "" then url else resolved) (extractTitle body)
          (extractText body) (some status) now).1.2,
       (upsertPage db (if resolved = "" then url else resolved) (extractTitle body)
          (extractText body) (some status) now).2)

/-- The outcome kind the per-URL task produces, determined by the fetch
result of that URL alone. -/
def expectedKind (net : Net) (url : String) : OutcomeKind :=
  match net url with
  | .err _ => .failed
  | .ok _ _ body => if extractText body = "" then .skipped else .ok

/-- A preview response item. -/
structure PreviewItem where
  url : String
  title : Option String
  content : String
  statusCode : Int
deriving DecidableEq

/-- The normalized preview query: `(query || '').toString().trim().toLowerCase()`. -/
def normQuery (q : Option String) : String := lowerStr (trimStr (q.getD ""))

/-- The per-URL preview task: fetch and extract; `null` (here `none`) on a
fetch error, on empty extracted text, or when a non-empty normalized query
is not contained in the lower-cased content. -/
def previewIter (net : Net) (nq : String) (url : String) : Option PreviewItem :=
  match net url with
  | .err _ => none
  | .ok resolved status body =>
    if extractText body = "" then none
    else if nq ≠ "" ∧ ¬ containsCI (lowerStr (extractText body)).data nq.data then none
    else some ⟨if resolved = "" then url else resolved, extractTitle body,
      extractText body, status⟩

/-! ### The fetch worker pool (`runWithConcurrency`, lines 37-54)

`runWithConcurrency(items, limit, iterator)` spawns
`Math.min(limit, items.length)` workers over a shared `nextIndex` counter;
each worker repeatedly takes the next index (the read-test-increment is
atomic: no `await` separates them on the JavaScript event loop), runs the
iterator and stores the result in the slot of that index, and exits once
the counter passes the end.  The small-step relation below models exactly
this: a worker is `idle` (between loop iterations), `running i` (its fetch
of `items[i]` is in flight) or `done` (its loop broke).  A per-item task is
a state transformer `α → σ → β × σ`; its effect is applied atomically when
the fetch completes. -/

/-- Status of one worker of the pool. -/
inductive WStatus where
  | idle
  | running (idx : Nat)
  | done
deriving DecidableEq

/-- State of a `runWithConcurrency` run: the shared counter, the workers,
the result slots and the shared mutable state the iterator acts on. -/
structure PoolState (β σ : Type) where
  nextIndex : Nat
  workers : List WStatus
  results : List (Option β)
  st : σ
deriving DecidableEq

/-- Initial pool state: `min limit items.length` idle workers, all result
slots empty. -/
def initPool {α β σ : Type} (limit : Nat) (items : List α) (s0 : σ) : PoolState β σ :=
  ⟨0, List.replicate (min limit items.length) .idle, List.replicate items.length none, s0⟩

/-- One scheduler step of the pool. -/
inductive PoolStep {α β σ : Type} (items : List α) (f : α → σ → β × σ) :
    PoolState β σ → PoolState β σ → Prop where
  | start (s : PoolState β σ) (w : Nat)
      (hw : s.workers[w]? = some .idle)
      (hi : s.nextIndex < items.length) :
      PoolStep items f s
        { s with nextIndex := s.nextIndex + 1,
                 workers := s.workers.set w (.running s.nextIndex) }
  | finish (s : PoolState β σ) (w i : Nat)
      (hw : s.workers[w]? = some (.running i))
      (ha : i < items.length) :
      PoolStep items f s
        { s with workers := s.workers.set w .idle,
                 results := s.results.set i (some (f (items.get ⟨i, ha⟩) s.st).1),
                 st := (f (items.get ⟨i, ha⟩) s.st).2 }
  | exit (s : PoolState β σ) (w : Nat)
      (hw : s.workers[w]? = some .idle)
      (hi : items.length ≤ s.nextIndex) :
      PoolStep items f s { s with workers := s.workers.set w .done }

/-- Reachability of pool states. -/
def PoolReach {α β σ : Type} (items : List α) (f : α → σ → β × σ)
    (s s' : PoolState β σ) : Prop :=
  Relation.ReflTransGen (PoolStep items f) s s'

/-- A state from which no step is possible (all workers exited). -/
def PoolTerminal {α β σ : Type} (items : List α) (f : α → σ → β × σ)
    (s : PoolState β σ) : Prop :=
  ¬ ∃ s', PoolStep items f s s'

/-- Number of fetches in flight. -/
def inFlight {β σ : Type} (s : PoolState β σ) : Nat :=
  s.workers.countP (fun w => match w with | .running _ => true | _ => false)

/-- Truthiness of a crawl outcome under `results.filter(Boolean)`: every
crawl outcome is a JavaScript object, hence truthy. -/
def crawlTruthy (_ : CrawlOutcome) : Bool := true

/-- The crawl response items built from a finished pool state:
`results.filter(Boolean)` over the slot array. -/
def crawlResponse {σ : Type} (s : PoolState CrawlOutcome σ) : List CrawlOutcome :=
  (s.results.filterMap id).filter crawlTruthy

/-- The preview response items: the per-URL tasks yield `null` or an item,
and `results.filter(Boolean)` drops the `null`s. -/
def previewResponse {σ : Type} (s : PoolState (Option PreviewItem) σ) : List PreviewItem :=
  (s.results.filterMap id).filterMap id

/-- The crawl iterator as a pool task over the tenant's store. -/
def crawlF (net : Net) (now : Nat) : String → Store → CrawlOutcome × Store :=
  fun url db => crawlIter net now url db

/-- The preview iterator as a pool task; the handler never touches the
tenant stores, so the whole server tenant state threads through unchanged. -/
def previewF (net : Net) (q : Option String) : String → Tenants → Option PreviewItem × Tenants :=
  fun url t => (previewIter net (normQuery q) url, t)

/-! ### Keyword filter (`filterPreview` / `filterDelete`)

Modelled from the spec: the server endpoints `POST /api/pages/filter-preview`
and `POST /api/pages/filter-delete` are not present under the sources (only
their frontend callers `previewDbFilter` / `deleteFilteredDb` in
`src/Functions.tsx` and their API documentation are).  Spec section 4.4: a
row matches if it contains at least one `include` keyword (OR semantics)
when `include` is non-empty, and contains none of the `exclude` keywords;
keyword matching is the same case-insensitive substring predicate as
search, over title and content; delete removes exactly the rows the same
predicate selects. -/

/-- Does the row contain the keyword (case-insensitive) in content or title? -/
def keywordMatch (p : Page) (k : String) : Bool :=
  containsCI p.content.data k.data ||
    (match p.title with
     | some t => containsCI t.data k.data
     | none => false)

/-- The shared filter predicate of preview and delete. -/
def filterPred (inc exc : List String) (p : Page) : Bool :=
  (inc.isEmpty || inc.any (keywordMatch p)) && ! exc.any (keywordMatch p)

/-- Modelled from the spec: `filterPreview(include, exclude)` returns the
matching rows and the true total count of matches. -/
def filterPreview (db : Store) (inc exc : List String) : List Page × Nat :=
  let matched := db.pages.filter (filterPred inc exc)
  (matched, matched.length)

/-- Modelled from the spec: `filterDelete(include, exclude)` deletes all
rows matching the identical predicate and returns
`(deletedCount, deletedIds)` together with the remaining store. -/
def filterDelete (db : Store) (inc exc : List String) :
    (Nat × List Nat) × Store :=
  let matched := db.pages.filter (filterPred inc exc)
  ((matched.length, matched.map (·.id)),
    { db with pages := db.pages.filter (fun p => ! filterPred inc exc p) })

/-! ### Aggregation coordinator (`searchAggregated`)

Modelled from the spec: the server endpoint `GET /api/jobs/search` is not
present under the sources (only its frontend caller `searchJobs` in
`src/Functions.tsx` and its API documentation are).  Spec section 4.6: the
query is normalized, an in-memory cache keyed by the normalized query holds
merged results for a fixed TTL window; a cache hit short-circuits all
outbound source calls and returns the prior merged result with
`cacheHit: true`; otherwise every source is queried, results are
concatenated per source, deduplicated by URL with the first occurrence
winning, cached and returned with `cacheHit: false`. -/

/-- A normalized job item from one search source. -/
structure JobItem where
  title : String
  source : String
  location : String
  url : String
  description : String
deriving DecidableEq

/-- One cache entry: normalized query, the time it was stored, the items. -/
structure CacheEntry where
  key : String
  storedAt : Nat
  items : List JobItem
deriving DecidableEq

/-- The coordinator's in-memory state. -/
structure JobState where
  cache : List CacheEntry
deriving DecidableEq

/-- The fixed cache TTL (five minutes, in milliseconds). -/
def CACHE_TTL : Nat := 300000

/-- Query normalization for the cache key. -/
def normalizeQuery (q : String) : String := lowerStr (trimStr q)

/-- Cross-source dedup by URL, first occurrence winning. -/
def dedupByUrlAux (seen : List String) : List JobItem → List JobItem
  | [] => []
  | j :: rest =>
    if seen.contains j.url then dedupByUrlAux seen rest
    else j :: dedupByUrlAux (j.url :: seen) rest

/-- Merge policy: concatenate per-source results in source order, then
dedup by URL. -/
def mergeResults (perSource : List (List JobItem)) : List JobItem :=
  dedupByUrlAux [] perSource.flatten

/-- The aggregated search result: the merged items, the cache-hit flag and
the number of outbound source calls the request issued. -/
structure AggResult where
  items : List JobItem
  cacheHit : Bool
  outboundCalls : Nat
deriving DecidableEq

/-- Cache probe: the first entry for this key that is still within its TTL
window relative to `now`. -/
def cacheLookup (st : JobState) (now : Nat) (key : String) : Option CacheEntry :=
  st.cache.find? (fun e => e.key == key && decide (now < e.storedAt + CACHE_TTL))

/-- The merged result a cache miss computes and stores. -/
def freshItems (sources : List (String → List JobItem)) (q : String) : List JobItem :=
  mergeResults (sources.map (fun src => src (normalizeQuery q)))

/-- Modelled from the spec: one aggregated search call at time `now` (see
the section comment above).  A fresh entry replaces any previous entry for
the same key. -/
def searchAggregated (sources : List (String → List JobItem)) (st : JobState)
    (now : Nat) (q : String) : AggResult × JobState :=
  match cacheLookup st now (normalizeQuery q) with
  | some e => (⟨e.items, true, 0⟩, st)
  | none =>
    (⟨freshItems sources q, false, sources.length⟩,
      ⟨⟨normalizeQuery q, now, freshItems sources q⟩ ::
        st.cache.filter (fun e => e.key ≠ normalizeQuery q)⟩)

/-! ### Claim C1: idempotent upsert -/

theorem refreshRow_url (title content sc h now p) :
    (refreshRow title content sc h now p).url = p.url := rfl

theorem refreshRow_id (title content sc h now p) :
    (refreshRow title content sc h now p).id = p.id := rfl

theorem find?_cons_eq {α : Type} (pred : α → Bool) (a : α) (l : List α) :
    (a :: l).find? pred = if pred a then some a else l.find? pred := by
  by_cases h : pred a
  · rw [List.find?_cons_of_pos _ h, if_pos h]
  · rw [List.find?_cons_of_neg _ h, if_neg h]

theorem upsertWrite_any (db : Store) (url : String) (title : Option String)
    (content : String) (sc : Option Int) (ch : String) (t1 : Nat) :
    (upsertWrite db url title content sc ch t1).pages.any (fun p => p.url == url) = true := by
  unfold upsertWrite
  by_cases h : (db.pages.any fun p => p.url == url) = true
  · rw [if_pos h]
    rw [List.any_eq_true] at h ⊢
    obtain ⟨p, hp, hmatch⟩ := h
    refine ⟨if p.url == url then refreshRow title content sc ch t1 p else p,
      List.mem_map_of_mem _ hp, ?_⟩
    simp [hmatch, refreshRow_url]
  · rw [if_neg h]
    simp

theorem upsertWrite_matched_fields (db : Store) (url : String) (title : Option String)
    (content : String) (sc : Option Int) (ch : String) (t1 : Nat) :
    ∀ p ∈ (upsertWrite db url title content sc ch t1).pages, p.url == url →
      p.title = title ∧ p.content = content ∧ p.status_code = sc ∧
      p.content_hash = ch := by
  intro p hp hmatch
  unfold upsertWrite at hp
  by_cases h : (db.pages.any fun p => p.url == url) = true
  · rw [if_pos h] at hp
    simp only [List.mem_map] at hp
    obtain ⟨q, hq, hEq⟩ := hp
    by_cases hq2 : (q.url == url) = true
    · rw [if_pos hq2] at hEq
      subst hEq
      exact ⟨rfl, rfl, rfl, rfl⟩
    · rw [if_neg hq2] at hEq
      subst hEq
      exact absurd hmatch hq2
  · rw [if_neg h] at hp
    simp only [List.mem_append, List.mem_singleton] at hp
    rcases hp with hp | hp
    · rw [List.any_eq_true] at h
      exact absurd ⟨p, hp, hmatch⟩ h
    · subst hp
      exact ⟨rfl, rfl, rfl, rfl⟩

theorem find?_map_url_pres (l : List Page) (g : Page → Page) (url : String)
    (hurl : ∀ p, (g p).url = p.url) :
    (l.map g).find? (fun p => p.url == url) = (l.find? (fun p => p.url == url)).map g := by
  induction l with
  | nil => rfl
  | cons p l ih =>
    rw [List.map_cons, find?_cons_eq, find?_cons_eq]
    by_cases h : (p.url == url) = true
    · rw [if_pos h, if_pos (by simpa [hurl] using h)]
      rfl
    · rw [if_neg h, if_neg (by simpa [hurl] using h)]
      exact ih

/-- Timestamp-only refresh of a row. -/
def touchRow (t : Nat) (p : Page) : Page := { p with fetched_at := t, updated_at := t }

theorem touchRow_url (t : Nat) (p : Page) : (touchRow t p).url = p.url := rfl

theorem touchRow_id (t : Nat) (p : Page) : (touchRow t p).id = p.id := rfl

theorem upsertWrite_of_any (db : Store) (url : String) (title : Option String)
    (content : String) (sc : Option Int) (ch : String) (t : Nat)
    (h : db.pages.any (fun p => p.url == url) = true) :
    upsertWrite db url title content sc ch t
      = { db with pages := db.pages.map (fun p =>
          if p.url == url then refreshRow title content sc ch t p else p) } := by
  unfold upsertWrite
  rw [if_pos h]

theorem upsert_second_write (db : Store) (url : String) (title : Option String)
    (content : String) (sc : Option Int) (ch : String) (t1 t2 : Nat) :
    upsertWrite (upsertWrite db url title content sc ch t1) url title content sc ch t2
      = { upsertWrite db url title content sc ch t1 with
          pages := (upsertWrite db url title content sc ch t1).pages.map
            (fun p => if p.url == url then touchRow t2 p else p) } := by
  rw [upsertWrite_of_any _ _ _ _ _ _ _ (upsertWrite_any db url title content sc ch t1)]
  congr 1
  apply List.map_congr_left
  intro p hp
  by_cases h : (p.url == url) = true
  · rw [if_pos h, if_pos h]
    obtain ⟨h1, h2, h3, h4⟩ := upsertWrite_matched_fields db url title content sc ch t1 p hp h
    cases p with
    | mk pid purl ptitle pcontent psc pch pf pc pu =>
      simp only at h1 h2 h3 h4
      subst h1; subst h2; subst h3; subst h4
      rfl
  · rw [if_neg h, if_neg h]

theorem touch_update_url (url : String) (t2 : Nat) (p : Page) :
    ((if (p.url == url) = true then touchRow t2 p else p) : Page).url = p.url := by
  by_cases h : (p.url == url) = true
  · rw [if_pos h]
    rfl
  · rw [if_neg h]

/-- C1: upsert is idempotent — calling `upsertPage` twice in succession with
identical inputs on the same tenant store yields the same id and the same
content hash both times, and between the two calls only the
`fetched_at`/`updated_at` timestamps of the matched row change (the row set,
other fields, `created_at` and the next rowid are untouched). -/
theorem claim_C1_upsert_idempotent (db : Store) (url : String) (title : Option String)
    (content : String) (statusCode : Option Int) (t1 t2 : Nat) :
    (upsertPage (upsertPage db url title content statusCode t1).2 url title content
        statusCode t2).1.1
      = (upsertPage db url title content statusCode t1).1.1 ∧
    (upsertPage (upsertPage db url title content statusCode t1).2 url title content
        statusCode t2).1.2
      = (upsertPage db url title content statusCode t1).1.2 ∧
    (upsertPage (upsertPage db url title content statusCode t1).2 url title content
        statusCode t2).2.nextId
      = (upsertPage db url title content statusCode t1).2.nextId ∧
    (upsertPage (upsertPage db url title content statusCode t1).2 url title content
        statusCode t2).2.pages
      = (upsertPage db url title content statusCode t1).2.pages.map
          (fun p => if p.url == url then touchRow t2 p else p) := by
  have hw2 := upsert_second_write db url title content statusCode (hashContent content) t1 t2
  refine ⟨?_, rfl, ?_, ?_⟩
  · show ((upsertWrite (upsertWrite db url title content statusCode (hashContent content) t1)
        url title content statusCode (hashContent content) t2).pages.find?
          (fun p => p.url == url)).map (fun p => p.id)
      = ((upsertWrite db url title content statusCode (hashContent content) t1).pages.find?
          (fun p => p.url == url)).map (fun p => p.id)
    rw [hw2]
    show (((upsertWrite db url title content statusCode (hashContent content) t1).pages.map
        (fun p => if p.url == url then touchRow t2 p else p)).find?
          (fun p => p.url == url)).map (fun p => p.id) = _
    rw [find?_map_url_pres _ _ _ (touch_update_url url t2)]
    cases hfind : (upsertWrite db url title content statusCode (hashContent content)
        t1).pages.find? (fun p => p.url == url) with
    | none => rfl
    | some p =>
      show some ((if (p.url == url) = true then touchRow t2 p else p) : Page).id = some p.id
      by_cases h : (p.url == url) = true
      · rw [if_pos h]
        rfl
      · rw [if_neg h]
  · show (upsertWrite (upsertWrite db url title content statusCode (hashContent content) t1)
        url title content statusCode (hashContent content) t2).nextId = _
    rw [hw2]
    rfl
  · show (upsertWrite (upsertWrite db url title content statusCode (hashContent content) t1)
        url title content statusCode (hashContent content) t2).pages = _
    rw [hw2]
    rfl

/-! ### Claim C7: filter preview / delete agreement -/

/-- C7: for every tenant state and every pair of include/exclude keyword
lists, `filterDelete` deletes exactly the ids `filterPreview` returns for
the identical arguments on the same pre-delete state: `deletedIds` is the
id list of the preview items, `deletedCount` is the preview total, and the
remaining rows are exactly the non-matching ones. -/
theorem claim_C7_filter_agreement (db : Store) (inc exc : List String) :
    (filterDelete db inc exc).1.2 = (filterPreview db inc exc).1.map (fun p => p.id) ∧
    (filterDelete db inc exc).1.1 = (filterPreview db inc exc).2 ∧
    (filterDelete db inc exc).2.pages = db.pages.filter (fun p => ! filterPred inc exc p) :=
  ⟨rfl, rfl, rfl⟩

/-! ### Claim C9: the 200-row limit cap -/

/-- C9: both the page-list and the page-search endpoints return at most
`min(requested limit, 200)` rows, the offset is clamped to be non-negative
(a negative offset behaves like offset 0), and in particular a request for
1000 rows (the bundled frontend's default) returns at most 200. -/
theorem claim_C9_limit_cap (s : Store) (q : String) (limit : Nat) (offset : Int) :
    (pagesList s limit offset).length ≤ min limit 200 ∧
    (pagesSearch s q limit offset).length ≤ min limit 200 ∧
    pagesList s limit offset = pagesList s limit (max offset 0) ∧
    pagesSearch s q limit offset = pagesSearch s q limit (max offset 0) ∧
    (pagesList s 1000 offset).length ≤ 200 := by
  have hmax : max (max offset 0) 0 = max offset 0 := by
    rw [max_assoc, max_self]
  refine ⟨List.length_take_le _ _, ?_, ?_, ?_, ?_⟩
  · unfold pagesSearch
    split
    · simp
    · exact List.length_take_le _ _
  · unfold pagesList
    rw [hmax]
  · unfold pagesSearch
    rw [hmax]
  · unfold pagesList
    have h := List.length_take_le (min 1000 200)
      ((sortByIdDesc s.pages).drop (max offset 0).toNat)
    omega

/-! ### Claim C8: aggregated-search cache correctness -/

/-- C8: after an aggregated search that missed the cache (and therefore
queried the sources and stored the merged result), a second search for the
same normalized query within the TTL window returns the identical item
list with `cacheHit = true` and issues no outbound source calls; once the
TTL has expired, the next call misses the cache and queries every source
again. -/
theorem claim_C8_cache_correct (sources : List (String → List JobItem)) (st0 : JobState)
    (q1 q2 : String) (t1 t2 : Nat)
    (hnorm : normalizeQuery q1 = normalizeQuery q2)
    (hmiss : (searchAggregated sources st0 t1 q1).1.cacheHit = false) :
    (t2 < t1 + CACHE_TTL →
      (searchAggregated sources (searchAggregated sources st0 t1 q1).2 t2 q2).1.items
        = (searchAggregated sources st0 t1 q1).1.items ∧
      (searchAggregated sources (searchAggregated sources st0 t1 q1).2 t2 q2).1.cacheHit
        = true ∧
      (searchAggregated sources (searchAggregated sources st0 t1 q1).2 t2 q2).1.outboundCalls
        = 0) ∧
    (t1 + CACHE_TTL ≤ t2 →
      (searchAggregated sources (searchAggregated sources st0 t1 q1).2 t2 q2).1.cacheHit
        = false ∧
      (searchAggregated sources (searchAggregated sources st0 t1 q1).2 t2 q2).1.outboundCalls
        = sources.length) := by
  unfold searchAggregated at hmiss ⊢
  cases hfind : cacheLookup st0 t1 (normalizeQuery q1) with
  | some e =>
    rw [hfind] at hmiss
    simp at hmiss
  | none =>
    dsimp only
    constructor
    · intro hin
      have hhead : cacheLookup
          ⟨⟨normalizeQuery q1, t1, freshItems sources q1⟩ ::
            st0.cache.filter (fun e => e.key ≠ normalizeQuery q1)⟩ t2 (normalizeQuery q2)
          = some ⟨normalizeQuery q1, t1, freshItems sources q1⟩ := by
        unfold cacheLookup
        rw [find?_cons_eq, if_pos (by simp [hnorm, hin])]
      rw [hhead]
      exact ⟨rfl, rfl, rfl⟩
    · intro hout
      have hnone : cacheLookup
          ⟨⟨normalizeQuery q1, t1, freshItems sources q1⟩ ::
            st0.cache.filter (fun e => e.key ≠ normalizeQuery q1)⟩ t2 (normalizeQuery q2)
          = none := by
        unfold cacheLookup
        rw [find?_cons_eq, if_neg (by simp [hnorm]; omega)]
        rw [List.find?_eq_none]
        intro e he
        have hne : e.key ≠ normalizeQuery q1 := by
          have := List.of_mem_filter he
          simpa using this
        simp [← hnorm, hne]
      rw [hnone]
      exact ⟨rfl, rfl⟩

/-- A demo external source for the cache witness. -/
def demoSource : String → List JobItem :=
  fun _ => [⟨"Dev role", "demo", "Remote", "http://jobs.test/1", "A role"⟩]

/-- Witness for C8 at a concrete instance: an empty cache, a first call at
time 0 and a second call at time 1 for an equal normalized query. -/
theorem claim_C8_cache_correct_witness :
    normalizeQuery "Dev" = normalizeQuery " dev " ∧
    (searchAggregated [demoSource] ⟨[]⟩ 0 "Dev").1.cacheHit = false ∧
    ((1 < 0 + CACHE_TTL →
      (searchAggregated [demoSource] (searchAggregated [demoSource] ⟨[]⟩ 0 "Dev").2
          1 " dev ").1.items
        = (searchAggregated [demoSource] ⟨[]⟩ 0 "Dev").1.items ∧
      (searchAggregated [demoSource] (searchAggregated [demoSource] ⟨[]⟩ 0 "Dev").2
          1 " dev ").1.cacheHit = true ∧
      (searchAggregated [demoSource] (searchAggregated [demoSource] ⟨[]⟩ 0 "Dev").2
          1 " dev ").1.outboundCalls = 0) ∧
    (0 + CACHE_TTL ≤ 1 →
      (searchAggregated [demoSource] (searchAggregated [demoSource] ⟨[]⟩ 0 "Dev").2
          1 " dev ").1.cacheHit = false ∧
      (searchAggregated [demoSource] (searchAggregated [demoSource] ⟨[]⟩ 0 "Dev").2
          1 " dev ").1.outboundCalls = [demoSource].length)) :=
  ⟨by decide, by decide,
    claim_C8_cache_correct [demoSource] ⟨[]⟩ "Dev" " dev " 0 1 (by decide) (by decide)⟩

/-! ### Claim C2: search contract and the LIKE-wildcard divergence -/

/-- Does the string avoid the SQL `LIKE` wildcard characters? -/
def wildcardFree (s : List Char) : Bool :=
  s.all (fun c => !(c = '%' : Bool) && !(c = '_' : Bool))

theorem anySuffix_congr (f g : List Char → Bool) (h : ∀ t, f t = g t) :
    ∀ s, anySuffix f s = anySuffix g s := by
  intro s
  induction s with
  | nil => exact h []
  | cons c cs ih =>
    unfold anySuffix
    rw [h (c :: cs), ih]

theorem anySuffix_likeMatch_nil (t : List Char) : anySuffix (likeMatch []) t = true := by
  induction t with
  | nil => rfl
  | cons c cs ih =>
    unfold anySuffix
    rw [ih]
    simp

theorem likeMatch_append_percent (q : List Char) (hq : wildcardFree q = true) :
    ∀ t, likeMatch (q ++ ['%']) t = isPrefixCI q t := by
  induction q with
  | nil =>
    intro t
    show likeMatch ['%'] t = true
    unfold likeMatch
    rw [if_pos rfl]
    exact anySuffix_likeMatch_nil t
  | cons a q ih =>
    intro t
    unfold wildcardFree at hq
    rw [List.all_cons] at hq
    simp only [Bool.and_eq_true, Bool.not_eq_true'] at hq
    obtain ⟨⟨ha1, ha2⟩, hq'⟩ := hq
    have ha1' : a ≠ '%' := by simpa using ha1
    have ha2' : a ≠ '_' := by simpa using ha2
    show likeMatch (a :: (q ++ ['%'])) t = isPrefixCI (a :: q) t
    unfold likeMatch
    rw [if_neg ha1']
    cases t with
    | nil => rfl
    | cons c cs =>
      show (if a = '_' then likeMatch (q ++ ['%']) cs
        else lcase a == lcase c && likeMatch (q ++ ['%']) cs) = isPrefixCI (a :: q) (c :: cs)
      rw [if_neg ha2']
      show ((lcase a == lcase c) && likeMatch (q ++ ['%']) cs) = isPrefixCI (a :: q) (c :: cs)
      rw [ih hq' cs]
      rfl

theorem likeMatch_pattern_eq_contains (q : String) (hq : wildcardFree q.data = true)
    (s : List Char) : likeMatch (likePattern q) s = containsCI s q.data := by
  show likeMatch ('%' :: (q.data ++ ['%'])) s = containsCI s q.data
  unfold likeMatch
  rw [if_pos rfl]
  unfold containsCI
  exact anySuffix_congr _ _ (likeMatch_append_percent q.data hq) s

theorem rowMatches_eq (q : String) (hq : wildcardFree q.data = true) (p : Page) :
    rowMatchesLike q p = rowMatchesSubstr q p := by
  unfold rowMatchesLike rowMatchesSubstr
  rw [likeMatch_pattern_eq_contains q hq]
  cases htitle : p.title with
  | none => rfl
  | some t =>
    dsimp only
    rw [likeMatch_pattern_eq_contains q hq]

theorem wildcardFree_trim (s : List Char) (h : wildcardFree s = true) :
    wildcardFree (trimList s) = true := by
  unfold wildcardFree at h ⊢
  rw [List.all_eq_true] at h ⊢
  intro c hc
  apply h
  unfold trimList at hc
  rw [List.mem_reverse] at hc
  have h1 := (List.dropWhile_sublist _).subset hc
  rw [List.mem_reverse] at h1
  exact (List.dropWhile_sublist _).subset h1

/-- C2 (amended): for every query free of the SQL `LIKE` wildcard characters
`%` and `_`, the search endpoint returns `[]` on an empty or all-whitespace
query, agrees exactly with the case-insensitive-substring semantics the
specification states (same filtered row set, same id-descending order, same
offset/limit window), and its output is ordered newest-first (descending
ids).  For queries containing `%` or `_` the endpoint follows SQL `LIKE`
wildcard semantics instead, which is the divergence the counterexample
exhibits. -/
theorem claim_C2_search_contract (s : Store) (q : String) (limit : Nat) (offset : Int)
    (hq : wildcardFree q.data = true) :
    (trimStr q = "" → pagesSearch s q limit offset = []) ∧
    pagesSearch s q limit offset = specSearchItems s q limit offset ∧
    List.Pairwise pageGE (pagesSearch s q limit offset) := by
  have htrim : wildcardFree (trimStr q).data = true := wildcardFree_trim q.data hq
  refine ⟨?_, ?_, ?_⟩
  · intro h
    unfold pagesSearch
    rw [if_pos h]
  · unfold pagesSearch specSearchItems
    by_cases h : trimStr q = ""
    · rw [if_pos h, if_pos h]
    · rw [if_neg h, if_neg h]
      have hfilter : s.pages.filter (rowMatchesLike (trimStr q))
          = s.pages.filter (rowMatchesSubstr (trimStr q)) := by
        apply List.filter_congr
        intro p _
        exact rowMatches_eq (trimStr q) htrim p
      rw [hfilter]
  · unfold pagesSearch
    by_cases h : trimStr q = ""
    · rw [if_pos h]
      exact List.Pairwise.nil
    · rw [if_neg h]
      have hsorted : List.Pairwise pageGE
          (sortByIdDesc (s.pages.filter (rowMatchesLike (trimStr q)))) :=
        List.sorted_insertionSort pageGE _
      exact List.Pairwise.sublist
        ((List.take_sublist _ _).trans (List.drop_sublist _ _)) hsorted

/-- The store of the C2 counterexample: one page whose content is `"abc"`. -/
def cexPage : Page := ⟨1, "http://c.test", none, "abc", some 200, hashContent "abc", 1, 1, 1⟩

/-- One-row store for the C2 counterexample. -/
def cexStore : Store := ⟨[cexPage], 2⟩

/-- C2 as stated is false on the code: the non-empty query `"%"` makes the
search endpoint return the row with content `"abc"`, although that content
does not contain `"%"` as a (case-insensitive) substring, because the query
is interpolated into the SQL `LIKE` pattern unescaped. -/
theorem claim_C2_counterexample :
    pagesSearch cexStore "%" 50 0 = [cexPage] ∧
    specSearchItems cexStore "%" 50 0 = [] ∧
    containsCIStr "abc" "%" = false ∧ trimStr "%" ≠ "" := by decide

/-- Witness for C2 at a concrete wildcard-free query. -/
theorem claim_C2_search_contract_witness :
    wildcardFree "aB".data = true ∧
    ((trimStr "aB" = "" → pagesSearch cexStore "aB" 50 0 = []) ∧
      pagesSearch cexStore "aB" 50 0 = specSearchItems cexStore "aB" 50 0 ∧
      List.Pairwise pageGE (pagesSearch cexStore "aB" 50 0)) :=
  ⟨by decide, claim_C2_search_contract cexStore "aB" 50 0 (by decide)⟩

/-! ### Claim C3: tenant isolation -/

/-- C3 (amended): tenant isolation holds for every pair of tenant ids whose
*sanitized* ids differ — any write operation applied under tenant A (every
server write path mutates only the store `getDb` returns for A's sanitized
id) is invisible to every read under tenant B: the store B reads, and hence
the list, search and get-by-id endpoints, are unchanged.  For distinct raw
ids that sanitize to the same safe id the property fails, which is the
divergence the counterexample exhibits. -/
theorem claim_C3_tenant_isolation (t : Tenants) (a b : Option String)
    (h : sanitizeChatId a ≠ sanitizeChatId b) (f : Store → Store) :
    getStore (applyAt t a f) b = getStore t b ∧
    (∀ limit offset, listEndpoint (applyAt t a f) b limit offset
      = listEndpoint t b limit offset) ∧
    (∀ q limit offset, searchEndpoint (applyAt t a f) b q limit offset
      = searchEndpoint t b q limit offset) ∧
    (∀ id, getByIdEndpoint (applyAt t a f) b id = getByIdEndpoint t b id) := by
  have hbase : getStore (applyAt t a f) b = getStore t b := by
    unfold getStore applyAt
    rw [if_neg (Ne.symm h)]
  refine ⟨hbase, ?_, ?_, ?_⟩
  · intro limit offset
    unfold listEndpoint
    rw [hbase]
  · intro q limit offset
    unfold searchEndpoint
    rw [hbase]
  · intro id
    unfold getByIdEndpoint
    rw [hbase]

/-- C3 witness at concrete distinct sanitized ids: a write under `"alice"`
leaves all reads under `"bob"` on the untouched empty store. -/
theorem claim_C3_tenant_isolation_witness :
    sanitizeChatId (some "alice") ≠ sanitizeChatId (some "bob") ∧
    getStore (applyAt emptyTenants (some "alice")
        (fun db => (upsertPage db "http://x" none "hello" none 7).2)) (some "bob")
      = getStore emptyTenants (some "bob") :=
  ⟨by decide,
    (claim_C3_tenant_isolation emptyTenants (some "alice") (some "bob") (by decide)
      (fun db => (upsertPage db "http://x" none "hello" none 7).2)).1⟩

/-- C3 as stated is false on the code: the raw tenant ids `"t!"` and `"t"`
are distinct, yet a page written under `"t!"` is visible to the page-list
read under `"t"`, because `sanitizeChatId` strips `'!'` and both ids reach
the same store file. -/
theorem claim_C3_counterexample :
    (some "t!" : Option String) ≠ some "t" ∧
    (listEndpoint (postPage emptyTenants (some "t!") "http://x" none "hello" 7)
        (some "t") 50 0).map (fun p => p.url) = ["http://x"] := by
  constructor
  · decide
  · decide

/-! ### Pool invariants -/

/-- Index of a some-result implies it is in range. -/
theorem getElem?_some_lt {γ : Type} (l : List γ) (i : Nat) (x : γ)
    (h : l[i]? = some x) : i < l.length :=
  (List.getElem?_eq_some_iff.mp h).1

/-- A some-result of indexing a replicated list is the replicated value. -/
theorem replicate_getElem?_some {γ : Type} (n : Nat) (a x : γ) (i : Nat)
    (h : (List.replicate n a)[i]? = some x) : x = a := by
  rcases List.getElem?_eq_some_iff.mp h with ⟨hlt, hx⟩
  rw [List.getElem_replicate] at hx
  exact hx.symm

/-- The run invariant of `runWithConcurrency`, parametrized by a per-item
postcondition `P` on completed results. -/
structure PoolInv {α β σ : Type} (items : List α) (N : Nat) (P : α → β → Prop)
    (s : PoolState β σ) : Prop where
  workers_len : s.workers.length = min N items.length
  results_len : s.results.length = items.length
  next_le : s.nextIndex ≤ items.length
  running_lt : ∀ (w i : Nat), s.workers[w]? = some (WStatus.running i) →
    i < s.nextIndex
  assigned : ∀ (i : Nat), i < s.nextIndex →
    (∃ v, s.results[i]? = some (some v)) ∨
      (∃ w : Nat, s.workers[w]? = some (WStatus.running i))
  done_next : ∀ (w : Nat), s.workers[w]? = some WStatus.done →
    items.length ≤ s.nextIndex
  content : ∀ (i : Nat) (v : β), s.results[i]? = some (some v) →
    ∃ ha : i < items.length, P (items.get ⟨i, ha⟩) v

/-- The initial pool state satisfies the invariant. -/
theorem inv_init {α β σ : Type} (items : List α) (N : Nat) (P : α → β → Prop)
    (s0 : σ) : PoolInv items N P (initPool N items s0 : PoolState β σ) := by
  refine ⟨List.length_replicate _ _, List.length_replicate _ _, Nat.zero_le _,
    ?_, ?_, ?_, ?_⟩
  · intro w i hw
    exact WStatus.noConfusion (replicate_getElem?_some _ _ _ _ hw)
  · intro i hi
    exact absurd hi (Nat.not_lt_zero i)
  · intro w hw
    exact WStatus.noConfusion (replicate_getElem?_some _ _ _ _ hw)
  · intro i v hv
    exact Option.noConfusion (replicate_getElem?_some _ _ _ _ hv)

/-- One pool step preserves the invariant, provided the task's result always
satisfies the postcondition. -/
theorem inv_step {α β σ : Type} {items : List α} {f : α → σ → β × σ} {N : Nat}
    {P : α → β → Prop} (HP : ∀ a st, P a (f a st).1)
    {s s' : PoolState β σ} (hstep : PoolStep items f s s')
    (hinv : PoolInv items N P s) : PoolInv items N P s' := by
  obtain ⟨wlen, rlen, nle, rlt, asg, dnx, cnt⟩ := hinv
  cases hstep with
  | start w hw hi =>
    refine ⟨by rw [List.length_set]; exact wlen, rlen, hi, ?_, ?_, ?_, cnt⟩
    · intro w' i hw'
      by_cases hww : w = w'
      · subst hww
        rw [List.getElem?_set_self (getElem?_some_lt _ _ _ hw)] at hw'
        cases WStatus.running.inj (Option.some.inj hw')
        exact Nat.lt_succ_self _
      · rw [List.getElem?_set_ne hww] at hw'
        exact Nat.lt_succ_of_lt (rlt w' i hw')
    · intro i hi2
      by_cases hlt : i < s.nextIndex
      · rcases asg i hlt with ⟨v, hv⟩ | ⟨w', hw'⟩
        · exact Or.inl ⟨v, hv⟩
        · refine Or.inr ⟨w', ?_⟩
          have hww : w ≠ w' := by
            intro hcon
            subst hcon
            rw [hw] at hw'
            cases Option.some.inj hw'
          rw [List.getElem?_set_ne hww]
          exact hw'
      · have heq : i = s.nextIndex := by
          have : i < s.nextIndex + 1 := hi2
          omega
        subst heq
        refine Or.inr ⟨w, ?_⟩
        rw [List.getElem?_set_self (getElem?_some_lt _ _ _ hw)]
    · intro w' hw'
      by_cases hww : w = w'
      · subst hww
        rw [List.getElem?_set_self (getElem?_some_lt _ _ _ hw)] at hw'
        cases Option.some.inj hw'
      · rw [List.getElem?_set_ne hww] at hw'
        exact Nat.le_succ_of_le (dnx w' hw')
  | finish w i hw ha =>
    refine ⟨by rw [List.length_set]; exact wlen, by rw [List.length_set]; exact rlen,
      nle, ?_, ?_, ?_, ?_⟩
    · intro w' j hw'
      have hww : w ≠ w' := by
        intro hcon
        subst hcon
        rw [List.getElem?_set_self (getElem?_some_lt _ _ _ hw)] at hw'
        cases Option.some.inj hw'
      rw [List.getElem?_set_ne hww] at hw'
      exact rlt w' j hw'
    · intro i' hi'
      by_cases hii : i = i'
      · subst hii
        refine Or.inl ⟨(f (items.get ⟨i, ha⟩) s.st).1, ?_⟩
        rw [List.getElem?_set_self (by rw [rlen]; exact ha)]
      · rcases asg i' hi' with ⟨v, hv⟩ | ⟨w', hw'⟩
        · refine Or.inl ⟨v, ?_⟩
          rw [List.getElem?_set_ne hii]
          exact hv
        · refine Or.inr ⟨w', ?_⟩
          have hww : w ≠ w' := by
            intro hcon
            subst hcon
            rw [hw] at hw'
            exact hii (WStatus.running.inj (Option.some.inj hw'))
          rw [List.getElem?_set_ne hww]
          exact hw'
    · intro w' hw'
      have hww : w ≠ w' := by
        intro hcon
        subst hcon
        rw [List.getElem?_set_self (getElem?_some_lt _ _ _ hw)] at hw'
        cases Option.some.inj hw'
      rw [List.getElem?_set_ne hww] at hw'
      exact dnx w' hw'
    · intro j v hv
      by_cases hij : i = j
      · subst hij
        rw [List.getElem?_set_self (by rw [rlen]; exact ha)] at hv
        cases Option.some.inj (Option.some.inj hv)
        exact ⟨ha, HP _ _⟩
      · rw [List.getElem?_set_ne hij] at hv
        exact cnt j v hv
  | exit w hw hi =>
    refine ⟨by rw [List.length_set]; exact wlen, rlen, nle, ?_, ?_, ?_, cnt⟩
    · intro w' j hw'
      have hww : w ≠ w' := by
        intro hcon
        subst hcon
        rw [List.getElem?_set_self (getElem?_some_lt _ _ _ hw)] at hw'
        cases Option.some.inj hw'
      rw [List.getElem?_set_ne hww] at hw'
      exact rlt w' j hw'
    · intro i hi2
      rcases asg i hi2 with ⟨v, hv⟩ | ⟨w', hw'⟩
      · exact Or.inl ⟨v, hv⟩
      · refine Or.inr ⟨w', ?_⟩
        have hww : w ≠ w' := by
          intro hcon
          subst hcon
          rw [hw] at hw'
          cases Option.some.inj hw'
        rw [List.getElem?_set_ne hww]
        exact hw'
    · intro w' _
      exact hi

/-- Invariants hold in every reachable state of a run. -/
theorem inv_reach {α β σ : Type} {items : List α} {f : α → σ → β × σ} {N : Nat}
    {P : α → β → Prop} (HP : ∀ a st, P a (f a st).1) {s0 : σ}
    {s : PoolState β σ} (h : PoolReach items f (initPool N items s0) s) :
    PoolInv items N P s := by
  induction h with
  | refl => exact inv_init items N P s0
  | tail hsteps hstep ih => exact inv_step HP hstep ih

/-- In a terminal reachable state every worker has exited. -/
theorem terminal_workers_done {α β σ : Type} {items : List α} {f : α → σ → β × σ}
    {N : Nat} {P : α → β → Prop} {s : PoolState β σ}
    (hinv : PoolInv items N P s) (hterm : PoolTerminal items f s) :
    ∀ (w : Nat) (st' : WStatus), s.workers[w]? = some st' → st' = WStatus.done := by
  intro w st' hw
  cases st' with
  | idle =>
    by_cases hi : s.nextIndex < items.length
    · exact absurd ⟨_, PoolStep.start s w hw hi⟩ hterm
    · exact absurd ⟨_, PoolStep.exit s w hw (Nat.le_of_not_lt hi)⟩ hterm
  | running i =>
    have hlt : i < items.length :=
      Nat.lt_of_lt_of_le (hinv.running_lt w i hw) hinv.next_le
    exact absurd ⟨_, PoolStep.finish s w i hw hlt⟩ hterm
  | done => rfl

/-- In a terminal reachable state of a pool with at least one worker, every
input slot has received a completed result. -/
theorem terminal_coverage {α β σ : Type} {items : List α} {f : α → σ → β × σ}
    {N : Nat} {P : α → β → Prop} {s : PoolState β σ}
    (hinv : PoolInv items N P s) (hterm : PoolTerminal items f s) (hN : 1 ≤ N) :
    ∀ i, i < items.length → ∃ v, s.results[i]? = some (some v) := by
  intro i hi
  have hwlen : 0 < s.workers.length := by
    rw [hinv.workers_len]
    exact lt_min hN (Nat.lt_of_le_of_lt (Nat.zero_le _) hi)
  have hw0 : s.workers[0]? = some (s.workers.get ⟨0, hwlen⟩) := by
    exact List.getElem?_eq_getElem hwlen
  have hdone := terminal_workers_done hinv hterm 0 _ hw0
  rw [hdone] at hw0
  have hnext : items.length ≤ s.nextIndex := hinv.done_next 0 hw0
  rcases hinv.assigned i (Nat.lt_of_lt_of_le hi hnext) with ⟨v, hv⟩ | ⟨w', hw'⟩
  · exact ⟨v, hv⟩
  · exact WStatus.noConfusion (terminal_workers_done hinv hterm w' _ hw')

/-- A state-preserving task leaves the shared state of every reachable pool
state at its initial value. -/
theorem reach_state_frame {α β σ : Type} {items : List α} {f : α → σ → β × σ}
    {N : Nat} (hf : ∀ a st, (f a st).2 = st) {s0 : σ} {s : PoolState β σ}
    (h : PoolReach items f (initPool N items s0) s) : s.st = s0 := by
  induction h with
  | refl => rfl
  | tail hsteps hstep ih =>
    cases hstep with
    | start w hw hi => exact ih
    | finish w i hw ha =>
      show (f _ _).2 = s0
      rw [hf]
      exact ih
    | exit w hw hi => exact ih

/-- A fully-populated option list collapses under `filterMap id` without
loss: the length is preserved and every collapsed entry comes from the slot
of the same index. -/
theorem filterMap_id_full {β : Type} (l : List (Option β))
    (hfull : ∀ i, i < l.length → ∃ v, l[i]? = some (some v)) :
    (l.filterMap id).length = l.length ∧
      ∀ (j : Nat) (v : β), (l.filterMap id)[j]? = some v → l[j]? = some (some v) := by
  induction l with
  | nil =>
    refine ⟨rfl, ?_⟩
    intro j v h
    rw [List.getElem?_eq_none_iff.mpr (by simp)] at h
    cases h
  | cons a t ih =>
    obtain ⟨v0, hv0⟩ := hfull 0 (Nat.succ_pos _)
    have ha : a = some v0 := by simpa using hv0
    subst ha
    obtain ⟨ihlen, ihidx⟩ := ih (fun i hi => by
      have h := hfull (i + 1) (Nat.succ_lt_succ hi)
      simpa using h)
    have hcons : List.filterMap id (some v0 :: t) = v0 :: List.filterMap id t := by
      simp
    constructor
    · show (List.filterMap id (some v0 :: t)).length = t.length + 1
      rw [hcons, List.length_cons, ihlen]
    · intro j v h
      rw [hcons] at h
      cases j with
      | zero =>
        have hv : v0 = v := by simpa using h
        subst hv
        exact hv0
      | succ j =>
        have h' : (List.filterMap id t)[j]? = some v := by simpa using h
        have := ihidx j v h'
        simpa using this

/-- The always-true crawl truthiness filter keeps every outcome. -/
theorem crawlResponse_eq {σ : Type} (s : PoolState CrawlOutcome σ) :
    crawlResponse s = s.results.filterMap id := by
  unfold crawlResponse
  exact List.filter_eq_self.mpr (fun _ _ => rfl)

/-! ### Claim C4: the concurrency bound -/

/-- C4: in every reachable state of any `runWithConcurrency` run with pool
size `N` — over any item list of any size and any per-item task — at most
`N` per-item fetches are in flight; and when the run has terminated (no
step is possible) with at least one worker, every queued item has been
picked up and completed into its result slot. -/
theorem claim_C4_concurrency_bound {α β σ : Type} (items : List α)
    (f : α → σ → β × σ) (N : Nat) (s0 : σ) (s : PoolState β σ)
    (hreach : PoolReach items f (initPool N items s0) s) :
    inFlight s ≤ N ∧
    (PoolTerminal items f s → 1 ≤ N → ∀ i, i < items.length →
      ∃ v, s.results[i]? = some (some v)) := by
  have hinv : PoolInv items N (fun _ _ => True) s :=
    inv_reach (fun _ _ => trivial) hreach
  constructor
  · calc inFlight s ≤ s.workers.length := List.countP_le_length _
      _ = min N items.length := hinv.workers_len
      _ ≤ N := Nat.min_le_left _ _
  · intro hterm hN i hi
    exact terminal_coverage hinv hterm hN i hi

/-! ### Per-URL crawl postcondition and the shared terminal-outcome lemma -/

/-- The crawl task records the original URL in its outcome and its outcome
kind is the one determined by the fetch result of that URL alone,
independent of the store state. -/
theorem crawlIter_post (net : Net) (now : Nat) (url : String) (db : Store) :
    (crawlIter net now url db).1.origUrl = url ∧
    (crawlIter net now url db).1.kind = expectedKind net url := by
  unfold crawlIter expectedKind
  cases net url with
  | err msg => exact ⟨rfl, rfl⟩
  | ok resolved status body =>
    dsimp only
    by_cases h : extractText body = ""
    · rw [if_pos h, if_pos h]
      exact ⟨rfl, rfl⟩
    · rw [if_neg h, if_neg h]
      exact ⟨rfl, rfl⟩

/-- Every terminal reachable state of a crawl batch carries exactly one
outcome per input URL, in input order: slot `j` holds an outcome whose
original URL is `urls[j]` and whose kind is determined by that URL's fetch
result. -/
theorem crawl_terminal_outcomes (net : Net) (now : Nat) (urls : List String)
    (db0 : Store) (s : PoolState CrawlOutcome Store)
    (hreach : PoolReach urls (crawlF net now) (initPool FETCH_CONCURRENCY urls db0) s)
    (hterm : PoolTerminal urls (crawlF net now) s) :
    (crawlResponse s).length = urls.length ∧
    ∀ (j : Nat) (hj : j < urls.length), ∃ o, (crawlResponse s)[j]? = some o ∧
      o.origUrl = urls.get ⟨j, hj⟩ ∧ o.kind = expectedKind net (urls.get ⟨j, hj⟩) := by
  have hinv : PoolInv urls FETCH_CONCURRENCY
      (fun url o => o.origUrl = url ∧ o.kind = expectedKind net url) s :=
    inv_reach (fun a st => crawlIter_post net now a st) hreach
  have hfull : ∀ i, i < s.results.length → ∃ v, s.results[i]? = some (some v) := by
    intro i hi
    rw [hinv.results_len] at hi
    exact terminal_coverage hinv hterm (by decide) i hi
  obtain ⟨hlen, hidx⟩ := filterMap_id_full s.results hfull
  have hrlen : (crawlResponse s).length = urls.length := by
    rw [crawlResponse_eq, hlen, hinv.results_len]
  refine ⟨hrlen, ?_⟩
  intro j hj
  have hjlt : j < (crawlResponse s).length := by rw [hrlen]; exact hj
  have hsome : (crawlResponse s)[j]? = some ((crawlResponse s).get ⟨j, hjlt⟩) :=
    List.getElem?_eq_getElem hjlt
  refine ⟨(crawlResponse s).get ⟨j, hjlt⟩, hsome, ?_⟩
  have hres : s.results[j]? = some (some ((crawlResponse s).get ⟨j, hjlt⟩)) := by
    apply hidx
    rw [← crawlResponse_eq]
    exact hsome
  obtain ⟨ha, hP⟩ := hinv.content j _ hres
  exact hP

/-! ### Claim C10: one outcome per URL, in input order -/

/-- C10: for every accepted crawl batch (between 1 and `MAX_URLS` URLs), a
finished `runWithConcurrency` run over the crawl task yields a response
containing exactly one outcome per input URL — slot `j` of the response is
an outcome for `urls[j]` (its recorded URL is `urls[j]` and its
ok/skipped/failed kind is the one `urls[j]`'s own fetch determines) —
because each worker writes its result into the slot indexed by the URL's
original position and crawl outcomes are never dropped by the truthiness
filter. -/
theorem claim_C10_outcomes_in_order (net : Net) (now : Nat) (urls : List String)
    (db0 : Store) (s : PoolState CrawlOutcome Store)
    (h1 : 1 ≤ urls.length) (h2 : urls.length ≤ MAX_URLS)
    (hreach : PoolReach urls (crawlF net now) (initPool FETCH_CONCURRENCY urls db0) s)
    (hterm : PoolTerminal urls (crawlF net now) s) :
    (crawlResponse s).length = urls.length ∧
    ∀ (j : Nat) (hj : j < urls.length), ∃ o, (crawlResponse s)[j]? = some o ∧
      o.origUrl = urls.get ⟨j, hj⟩ ∧ o.kind = expectedKind net (urls.get ⟨j, hj⟩) :=
  crawl_terminal_outcomes net now urls db0 s hreach hterm

/-! ### Claim C5: per-URL failure isolation -/

/-- C5: with a fixed URL whose fetch always fails, a finished crawl batch
still gives every slot its own outcome: the failing URL's outcomes are
`failed`, every other URL's outcome kind is exactly the kind its own fetch
result determines — unchanged under any modification of the network's
behaviour at the failing URL — and a URL whose fetch succeeds is never
`failed`, only `ok` or `skipped` according to whether its extracted text is
empty. -/
theorem claim_C5_failure_isolation (net : Net) (now : Nat) (urls : List String)
    (badUrl msg : String) (hbad : net badUrl = FetchResult.err msg) (db0 : Store)
    (s : PoolState CrawlOutcome Store)
    (hreach : PoolReach urls (crawlF net now) (initPool FETCH_CONCURRENCY urls db0) s)
    (hterm : PoolTerminal urls (crawlF net now) s) :
    (∀ (j : Nat) (hj : j < urls.length), ∃ o, (crawlResponse s)[j]? = some o ∧
      o.origUrl = urls.get ⟨j, hj⟩ ∧
      (urls.get ⟨j, hj⟩ = badUrl → o.kind = OutcomeKind.failed) ∧
      (urls.get ⟨j, hj⟩ ≠ badUrl → o.kind = expectedKind net (urls.get ⟨j, hj⟩))) ∧
    (∀ net' : Net, (∀ u, u ≠ badUrl → net' u = net u) →
      ∀ u, u ≠ badUrl → expectedKind net' u = expectedKind net u) ∧
    (∀ u resolved status body, net u = FetchResult.ok resolved status body →
      expectedKind net u
        = (if extractText body = "" then OutcomeKind.skipped else OutcomeKind.ok)) := by
  obtain ⟨hlen, hout⟩ := crawl_terminal_outcomes net now urls db0 s hreach hterm
  refine ⟨?_, ?_, ?_⟩
  · intro j hj
    obtain ⟨o, ho, hurl, hkind⟩ := hout j hj
    refine ⟨o, ho, hurl, ?_, ?_⟩
    · intro hbadj
      rw [hkind, hbadj]
      unfold expectedKind
      rw [hbad]
    · intro _
      exact hkind
  · intro net' hagree u hu
    unfold expectedKind
    rw [hagree u hu]
  · intro u resolved status body hok
    unfold expectedKind
    rw [hok]

/-! ### Claim C6: preview has no persistence side effect -/

/-- Each item the preview task emits has non-empty extracted text, and when
the normalized query is non-empty the lower-cased text contains it. -/
theorem previewIter_post (net : Net) (nq : String) (url : String) :
    ∀ it, previewIter net nq url = some it →
      it.content ≠ "" ∧
        (nq ≠ "" → containsCI (lowerStr it.content).data nq.data = true) := by
  intro it h
  unfold previewIter at h
  cases hn : net url with
  | err m =>
    rw [hn] at h
    cases h
  | ok resolved status body =>
    rw [hn] at h
    dsimp only at h
    by_cases h1 : extractText body = ""
    · rw [if_pos h1] at h
      cases h
    · rw [if_neg h1] at h
      by_cases h2 : nq ≠ "" ∧ ¬ containsCI (lowerStr (extractText body)).data nq.data
      · rw [if_pos h2] at h
        cases h
      · rw [if_neg h2] at h
        cases Option.some.inj h
        refine ⟨h1, ?_⟩
        intro hnq
        by_contra hc
        exact h2 ⟨hnq, fun hp => hc hp⟩

/-- C6: a preview run has no persistence side effect — in every reachable
state of a `runWithConcurrency` run over the preview task the server's
tenant stores are exactly the initial ones (no Page row inserted, updated
or deleted in any tenant) — and every returned item has non-empty extracted
text which, when a non-empty query was given, contains the normalized query
as a substring of its lower-cased text. -/
theorem claim_C6_preview_no_persistence (net : Net) (q : Option String)
    (urls : List String) (t0 : Tenants) (s : PoolState (Option PreviewItem) Tenants)
    (hreach : PoolReach urls (previewF net q) (initPool FETCH_CONCURRENCY urls t0) s) :
    s.st = t0 ∧
    ∀ it, it ∈ previewResponse s → it.content ≠ "" ∧
      (normQuery q ≠ "" →
        containsCI (lowerStr it.content).data (normQuery q).data = true) := by
  have hinv : PoolInv urls FETCH_CONCURRENCY
      (fun url r => ∀ it, r = some it → it.content ≠ "" ∧
        (normQuery q ≠ "" →
          containsCI (lowerStr it.content).data (normQuery q).data = true)) s :=
    inv_reach (fun a st => previewIter_post net (normQuery q) a) hreach
  refine ⟨reach_state_frame (fun a st => rfl) hreach, ?_⟩
  intro it hit
  unfold previewResponse at hit
  rw [List.mem_filterMap] at hit
  obtain ⟨r, hr, hid⟩ := hit
  rw [List.mem_filterMap] at hr
  obtain ⟨r2, hr2, hid2⟩ := hr
  obtain ⟨i, hi⟩ := List.getElem?_of_mem hr2
  have hr2eq : r2 = some r := hid2
  have hi2 : s.results[i]? = some (some r) := by
    rw [hi, hr2eq]
  obtain ⟨ha, hP⟩ := hinv.content i r hi2
  exact hP it hid

/-! ### Concrete demonstration runs for the pool claims -/

/-- A state whose workers have all exited admits no further step. -/
theorem all_done_terminal {α β σ : Type} (items : List α) (f : α → σ → β × σ)
    (s : PoolState β σ) (h : ∀ st', st' ∈ s.workers → st' = WStatus.done) :
    PoolTerminal items f s := by
  rintro ⟨s', hstep⟩
  cases hstep with
  | start w hw hi => exact WStatus.noConfusion (h _ (List.getElem?_mem hw))
  | finish w i hw ha => exact WStatus.noConfusion (h _ (List.getElem?_mem hw))
  | exit w hw hi => exact WStatus.noConfusion (h _ (List.getElem?_mem hw))

/-- Demo network: one URL that resolves with an HTML body, every other URL
fails with the error message `"boom"`. -/
def demoNet : Net := fun u =>
  if u = "http://good.test" then
    FetchResult.ok "http://good.test" 200 "<html><title>G</title><p>hi</p></html>"
  else FetchResult.err "boom"

/-- Demo batch: a resolving URL followed by a failing one. -/
def demoUrls : List String := ["http://good.test", "http://bad.test"]

/-- The store after the first demo URL completes. -/
def demoDb1 : Store := (crawlIter demoNet 5 "http://good.test" emptyStore).2

/-- Outcome of the first demo URL. -/
def demoO0 : CrawlOutcome := (crawlIter demoNet 5 "http://good.test" emptyStore).1

/-- Outcome of the second (failing) demo URL. -/
def demoO1 : CrawlOutcome := (crawlIter demoNet 5 "http://bad.test" demoDb1).1

/-- The store after both demo URLs complete. -/
def demoDb2 : Store := (crawlIter demoNet 5 "http://bad.test" demoDb1).2

/-- The terminal state of the demo crawl run. -/
def demoFinal : PoolState CrawlOutcome Store :=
  ⟨2, [WStatus.done, WStatus.done], [some demoO0, some demoO1], demoDb2⟩

/-- The demo crawl run reaches its terminal state through an explicit
six-step schedule (both workers start, both finish, both exit). -/
theorem demoReach : PoolReach demoUrls (crawlF demoNet 5)
    (initPool FETCH_CONCURRENCY demoUrls emptyStore) demoFinal := by
  have h0 : PoolStep demoUrls (crawlF demoNet 5)
      (initPool FETCH_CONCURRENCY demoUrls emptyStore)
      ⟨1, [WStatus.running 0, WStatus.idle], [none, none], emptyStore⟩ :=
    PoolStep.start _ 0 rfl (by decide)
  have h1 : PoolStep demoUrls (crawlF demoNet 5)
      ⟨1, [WStatus.running 0, WStatus.idle], [none, none], emptyStore⟩
      ⟨2, [WStatus.running 0, WStatus.running 1], [none, none], emptyStore⟩ :=
    PoolStep.start _ 1 rfl (by decide)
  have h2 : PoolStep demoUrls (crawlF demoNet 5)
      ⟨2, [WStatus.running 0, WStatus.running 1], [none, none], emptyStore⟩
      ⟨2, [WStatus.idle, WStatus.running 1], [some demoO0, none], demoDb1⟩ :=
    by
      refine PoolStep.finish _ 0 0 ?_ (by decide)
      rfl
  have h3 : PoolStep demoUrls (crawlF demoNet 5)
      ⟨2, [WStatus.idle, WStatus.running 1], [some demoO0, none], demoDb1⟩
      ⟨2, [WStatus.idle, WStatus.idle], [some demoO0, some demoO1], demoDb2⟩ :=
    by
      refine PoolStep.finish _ 1 1 ?_ (by decide)
      rfl
  have h4 : PoolStep demoUrls (crawlF demoNet 5)
      ⟨2, [WStatus.idle, WStatus.idle], [some demoO0, some demoO1], demoDb2⟩
      ⟨2, [WStatus.done, WStatus.idle], [some demoO0, some demoO1], demoDb2⟩ :=
    PoolStep.exit _ 0 rfl (by decide)
  have h5 : PoolStep demoUrls (crawlF demoNet 5)
      ⟨2, [WStatus.done, WStatus.idle], [some demoO0, some demoO1], demoDb2⟩
      demoFinal :=
    PoolStep.exit _ 1 rfl (by decide)
  exact (((((Relation.ReflTransGen.refl.tail h0).tail h1).tail h2).tail h3).tail
    h4).tail h5

/-- The demo crawl run's final state is terminal. -/
theorem demoTerminal : PoolTerminal demoUrls (crawlF demoNet 5) demoFinal :=
  all_done_terminal _ _ _ (by decide)

/-- Witness for C4 on the demo run. -/
theorem claim_C4_concurrency_bound_witness :
    inFlight demoFinal ≤ FETCH_CONCURRENCY ∧
    (PoolTerminal demoUrls (crawlF demoNet 5) demoFinal → 1 ≤ FETCH_CONCURRENCY →
      ∀ i, i < demoUrls.length → ∃ v, demoFinal.results[i]? = some (some v)) :=
  claim_C4_concurrency_bound demoUrls (crawlF demoNet 5) FETCH_CONCURRENCY
    emptyStore demoFinal demoReach

/-- Witness for C10 on the demo run. -/
theorem claim_C10_outcomes_in_order_witness :
    1 ≤ demoUrls.length ∧ demoUrls.length ≤ MAX_URLS ∧
    (crawlResponse demoFinal).length = demoUrls.length :=
  ⟨by decide, by decide,
    (claim_C10_outcomes_in_order demoNet 5 demoUrls emptyStore demoFinal
      (by decide) (by decide) demoReach demoTerminal).1⟩

/-- Witness for C5 on the demo run: the failing URL is `"http://bad.test"`. -/
theorem claim_C5_failure_isolation_witness :
    demoNet "http://bad.test" = FetchResult.err "boom" ∧
    (∀ (j : Nat) (hj : j < demoUrls.length),
      ∃ o, (crawlResponse demoFinal)[j]? = some o ∧
        o.origUrl = demoUrls.get ⟨j, hj⟩ ∧
        (demoUrls.get ⟨j, hj⟩ = "http://bad.test" → o.kind = OutcomeKind.failed) ∧
        (demoUrls.get ⟨j, hj⟩ ≠ "http://bad.test" →
          o.kind = expectedKind demoNet (demoUrls.get ⟨j, hj⟩))) :=
  ⟨by decide,
    (claim_C5_failure_isolation demoNet 5 demoUrls "http://bad.test" "boom"
      (by decide) emptyStore demoFinal demoReach demoTerminal).1⟩

/-- Demo preview batch: a single URL. -/
def demoPreviewUrls : List String := ["http://good.test"]

/-- The item the preview task yields for the demo URL and query. -/
def demoPreviewItem : Option PreviewItem :=
  previewIter demoNet (normQuery (some "HI")) "http://good.test"

/-- The terminal state of the demo preview run. -/
def demoPreviewFinal : PoolState (Option PreviewItem) Tenants :=
  ⟨1, [WStatus.done], [some demoPreviewItem], emptyTenants⟩

/-- The demo preview run reaches its terminal state (start, finish, exit). -/
theorem demoPreviewReach : PoolReach demoPreviewUrls (previewF demoNet (some "HI"))
    (initPool FETCH_CONCURRENCY demoPreviewUrls emptyTenants) demoPreviewFinal := by
  have h0 : PoolStep demoPreviewUrls (previewF demoNet (some "HI"))
      (initPool FETCH_CONCURRENCY demoPreviewUrls emptyTenants)
      ⟨1, [WStatus.running 0], [none], emptyTenants⟩ :=
    PoolStep.start _ 0 rfl (by decide)
  have h1 : PoolStep demoPreviewUrls (previewF demoNet (some "HI"))
      ⟨1, [WStatus.running 0], [none], emptyTenants⟩
      ⟨1, [WStatus.idle], [some demoPreviewItem], emptyTenants⟩ :=
    by
      refine PoolStep.finish _ 0 0 ?_ (by decide)
      rfl
  have h2 : PoolStep demoPreviewUrls (previewF demoNet (some "HI"))
      ⟨1, [WStatus.idle], [some demoPreviewItem], emptyTenants⟩
      demoPreviewFinal :=
    PoolStep.exit _ 0 rfl (by decide)
  exact ((Relation.ReflTransGen.refl.tail h0).tail h1).tail h2

/-- Witness for C6 on the demo preview run. -/
theorem claim_C6_preview_no_persistence_witness :
    demoPreviewFinal.st = emptyTenants ∧
    ∀ it, it ∈ previewResponse demoPreviewFinal → it.content ≠ "" ∧
      (normQuery (some "HI") ≠ "" →
        containsCI (lowerStr it.content).data (normQuery (some "HI")).data = true) :=
  claim_C6_preview_no_persistence demoNet (some "HI") demoPreviewUrls emptyTenants
    demoPreviewFinal demoPreviewReach
